import Mathlib

/-!
Verification of the metrics-aggregation core of the `rust_ws_client` example
(`examples/rust_ws_client/src/main.rs`).

The embedding models:
* `Snap` — one timeline entry (struct `Snap` in the source);
* `selectBase` / `calc_rates` — the sliding-window rate calculator
  (`fn calc_rates`), with time as natural-number seconds and rates in `ℚ`
  (the source uses `f64`; every quantity the claims mention is exactly
  representable);
* `pruneOld` / `appendSnap` — the timeline push/evict block in the stats task;
* `hsInsert` / `unionCount` — the `HashSet` insert and union-count operations,
  modelled as duplicate-free lists;
* `CounterStore` / `ingest` / `processAll` — the WS ingestion loop updating
  the message counters and instrument sets;
* `mkSnap` — construction of a timeline entry from a counter read;
* `pct` — the coverage-percentage helper (`fn pct`);
* `trySend` — the bounded non-blocking print sink.
-/

/-- One timeline entry: mirrors `struct Snap` in the source (field `t` is the
capture instant, in whole time units). -/
structure Snap where
  t : Nat
  total_msgs : Nat
  live_msgs : Nat
  snap_msgs : Nat
  live_insts : Nat
  snap_insts : Nat
  union_insts : Nat
deriving DecidableEq, Repr

/-- Base-entry selection of `calc_rates`: scan the timeline newest-to-oldest
(`tl.iter().rev()`) for the first entry whose age is at least `secs`
(`now.duration_since(s.t).as_secs() >= secs`); if none is found, fall back to
the front (oldest) entry.  `Instant::duration_since` saturates at zero, as
does natural-number subtraction. -/
def selectBase (tl : List Snap) (now secs : Nat) : Option Snap :=
  match tl.reverse.find? (fun s => decide (secs ≤ now - s.t)) with
  | some b => some b
  | none => tl.head?

/-- `fn calc_rates`: given the timeline, `now`, the window length `secs` and
the current counter values, return the five reported rates
`(mps_total, mps_live, mps_snap, ips_live, ips_snap)`.  `dt` is
`max(now - base.t, 1)`; each numerator is a saturating subtraction
(`usize::saturating_sub`).  With an empty timeline all rates are `0`. -/
def calc_rates (tl : List Snap) (now secs : Nat)
    (tm lm sm li si : Nat) : ℚ × ℚ × ℚ × ℚ × ℚ :=
  match selectBase tl now secs with
  | some b =>
      let dt : ℚ := max ((now - b.t : Nat) : ℚ) 1
      (((tm - b.total_msgs : Nat) : ℚ) / dt,
       ((lm - b.live_msgs : Nat) : ℚ) / dt,
       ((sm - b.snap_msgs : Nat) : ℚ) / dt,
       ((li - b.live_insts : Nat) : ℚ) / dt,
       ((si - b.snap_insts : Nat) : ℚ) / dt)
  | none => (0, 0, 0, 0, 0)

/-- The eviction loop run after each timeline push: while the front entry is
more than 60 time units older than `now`, pop it; stop at the first entry
that is recent enough. -/
def pruneOld (now : Nat) : List Snap → List Snap
  | [] => []
  | f :: rest => if 60 < now - f.t then pruneOld now rest else f :: rest

/-- The timeline-append block of the stats task: `push_back` the new snapshot
(whose `t` field is the current instant) and then evict stale front entries. -/
def appendSnap (tl : List Snap) (s : Snap) : List Snap :=
  pruneOld s.t (tl ++ [s])

/-- `HashSet::insert`, on a duplicate-free list model: a no-op when the
element is present, otherwise adds it. -/
def hsInsert (l : List String) (s : String) : List String :=
  if s ∈ l then l else l ++ [s]

/-- `li_set.union(&si_set).count()`: the `HashSet` union iterator yields every
element of the first set and then each element of the second set not already
in the first; `count` is its length. -/
def unionCount (a b : List String) : Nat :=
  (a ++ b.filter (fun x => decide (x ∉ a))).length

/-- The shared mutable stats state: the three message counters and the two
instrument sets (`HashSet<String>`, modelled as duplicate-free lists). -/
structure CounterStore where
  total_msgs : Nat
  live_msgs : Nat
  snap_msgs : Nat
  live_instruments : List String
  snap_instruments : List String
deriving DecidableEq, Repr

/-- Startup state: zero counters, empty sets. -/
def initialState : CounterStore := ⟨0, 0, 0, [], []⟩

/-- The JSON fields of the inner `message` object that the ingestion loop
reads on the `get_last_event` path. -/
structure InnerMsg where
  ev : Option String
  symb : Option String
deriving DecidableEq, Repr

/-- An inbound WS text message, abstracted to the JSON fields the ingestion
loop reads: whether `serde_json::from_str::<Value>` succeeded, the top-level
`ev`, `symb` and `status` fields, and the nested `message` object. -/
structure WsText where
  parsed : Bool
  ev : Option String
  symb : Option String
  status : Option String
  message : Option InnerMsg
deriving DecidableEq, Repr

/-- One iteration of the WS ingestion loop for a text message: always add one
to `total_msgs`; on `ev == "book"` add one to `live_msgs` and insert `symb`
(when present) into the live set; on `ev == "get_last_event"` with
`status == "success"` and an inner `message` whose `ev == "book"`, add one to
`snap_msgs` and insert the inner `symb` (when present) into the snapshot
set. -/
def ingest (st : CounterStore) (m : WsText) : CounterStore :=
  let st1 := { st with total_msgs := st.total_msgs + 1 }
  if m.parsed then
    match m.ev with
    | some ev =>
        if ev = "book" then
          let st2 := { st1 with live_msgs := st1.live_msgs + 1 }
          match m.symb with
          | some s =>
              { st2 with live_instruments := hsInsert st2.live_instruments s }
          | none => st2
        else if ev = "get_last_event" then
          if m.status = some "success" then
            match m.message with
            | some inner =>
                if inner.ev = some "book" then
                  let st2 := { st1 with snap_msgs := st1.snap_msgs + 1 }
                  match inner.symb with
                  | some s =>
                      { st2 with
                        snap_instruments := hsInsert st2.snap_instruments s }
                  | none => st2
                else st1
            | none => st1
          else st1
        else st1
    | none => st1
  else st1

/-- The ingestion loop over a finite stream of text messages. -/
def processAll (st : CounterStore) (ms : List WsText) : CounterStore :=
  ms.foldl ingest st

/-- The counter-read-and-snapshot block of the stats task: capture the three
counters, the two set sizes and the union count into a `Snap` stamped `now`. -/
def mkSnap (now : Nat) (st : CounterStore) : Snap :=
  { t := now
    total_msgs := st.total_msgs
    live_msgs := st.live_msgs
    snap_msgs := st.snap_msgs
    live_insts := st.live_instruments.length
    snap_insts := st.snap_instruments.length
    union_insts := unionCount st.live_instruments st.snap_instruments }

/-- `fn pct`: percentage `n * 100 / d`, returning `0` when the denominator is
zero. -/
def pct (n d : Nat) : ℚ :=
  if d = 0 then 0 else (n : ℚ) * 100 / (d : ℚ)

/-- The channel capacity constant `PRINT_BUFFER_SIZE`. -/
def PRINT_BUFFER_SIZE : Nat := 10000

/-- Modelled from the spec: the bounded async sink non-blocking enqueue.  The
queue implementation itself is the channel library, outside this repository;
per the spec (§4.5) producers call a non-blocking enqueue and, when the queue
is at capacity, the newly attempted line is silently dropped while queued
items are kept in FIFO order. -/
def trySend (cap : Nat) (q : List String) (line : String) : List String :=
  if q.length < cap then q ++ [line] else q

/-! ### Helper lemmas -/

lemma selectBase_singleton (s : Snap) (now secs : Nat) :
    selectBase [s] now secs = some s := by
  simp only [selectBase, List.reverse_cons, List.reverse_nil, List.nil_append, List.find?]
  cases h : decide (secs ≤ now - s.t) <;> simp

lemma cast_natSub_eq_max (a b : Nat) :
    ((a - b : Nat) : ℚ) = max ((a : ℚ) - b) 0 := by
  rcases le_total b a with h | h
  · rw [Nat.cast_sub h, max_eq_left (sub_nonneg.mpr (by exact_mod_cast h))]
  · rw [Nat.sub_eq_zero_of_le h, max_eq_right (sub_nonpos.mpr (by exact_mod_cast h))]
    simp

/-! ### Claims about the percentage helper and the sink -/

/-- C9: `pct` with denominator `0` returns `0` for every numerator, so
coverage rendering is total even when the instrument universe is empty. -/
theorem c9_pct_zero_denominator : ∀ n : Nat, pct n 0 = 0 := by
  intro n
  simp [pct]

/-- C8: coverage percentage is `count * 100 / universe` when the universe is
nonempty, and `3` of `10` is reported as `30`%. -/
theorem c8_coverage_pct :
    (∀ n d : Nat, d ≠ 0 → pct n d = (n : ℚ) * 100 / (d : ℚ)) ∧ pct 3 10 = 30 := by
  constructor
  · intro n d hd
    simp [pct, hd]
  · norm_num [pct]

theorem c8_coverage_pct_witness :
    (10 : Nat) ≠ 0 ∧ pct 3 10 = (3 : ℚ) * 100 / (10 : ℚ) ∧ pct 3 10 = 30 :=
  ⟨by norm_num, c8_coverage_pct.1 3 10 (by norm_num), c8_coverage_pct.2⟩

/-- C3: when the sink queue is at capacity, the non-blocking enqueue drops the
newly attempted line and leaves the queued lines exactly as they were, in
FIFO order. -/
theorem c3_drop_on_full (cap : Nat) (q : List String) (line : String)
    (h : q.length = cap) : trySend cap q line = q := by
  simp [trySend, h]

theorem c3_drop_on_full_witness :
    (["a", "b"] : List String).length = 2 ∧ trySend 2 ["a", "b"] "c" = ["a", "b"] :=
  ⟨by decide, c3_drop_on_full 2 ["a", "b"] "c" (by decide)⟩

/-! ### Claims about the rate calculator -/

/-- C5: with a single-entry timeline, the rate calculations for the three
windows 1, 10 and 60 coincide for every tracked quantity, since every window
resolves to that single entry as base. -/
theorem c5_single_entry_windows (s : Snap) (now tm lm sm li si : Nat) :
    calc_rates [s] now 1 tm lm sm li si = calc_rates [s] now 10 tm lm sm li si ∧
    calc_rates [s] now 10 tm lm sm li si = calc_rates [s] now 60 tm lm sm li si := by
  constructor <;> simp only [calc_rates, selectBase_singleton]

/-- C2: every rate is the clamped difference `max(q_now - q_base, 0)` divided
by `dt = max(now - base.t, 1)`, all returned rates are non-negative, and with
base `total = 100` at age 10 and current `total = 150` the total-message rate
is exactly `5`. -/
theorem c2_rate_formula :
    (∀ tl now secs tm lm sm li si,
      0 ≤ (calc_rates tl now secs tm lm sm li si).1 ∧
      0 ≤ (calc_rates tl now secs tm lm sm li si).2.1 ∧
      0 ≤ (calc_rates tl now secs tm lm sm li si).2.2.1 ∧
      0 ≤ (calc_rates tl now secs tm lm sm li si).2.2.2.1 ∧
      0 ≤ (calc_rates tl now secs tm lm sm li si).2.2.2.2) ∧
    (∀ tl now secs tm lm sm li si b, selectBase tl now secs = some b →
      calc_rates tl now secs tm lm sm li si =
        (max ((tm : ℚ) - b.total_msgs) 0 / max ((now - b.t : Nat) : ℚ) 1,
         max ((lm : ℚ) - b.live_msgs) 0 / max ((now - b.t : Nat) : ℚ) 1,
         max ((sm : ℚ) - b.snap_msgs) 0 / max ((now - b.t : Nat) : ℚ) 1,
         max ((li : ℚ) - b.live_insts) 0 / max ((now - b.t : Nat) : ℚ) 1,
         max ((si : ℚ) - b.snap_insts) 0 / max ((now - b.t : Nat) : ℚ) 1)) ∧
    (calc_rates [⟨0, 100, 0, 0, 0, 0, 0⟩] 10 10 150 0 0 0 0).1 = 5 := by
  refine ⟨?_, ?_, ?_⟩
  · intro tl now secs tm lm sm li si
    rcases h : selectBase tl now secs with _ | b
    · simp [calc_rates, h]
    · have hdt : (0 : ℚ) ≤ max ((now - b.t : Nat) : ℚ) 1 :=
        le_trans zero_le_one (le_max_right _ _)
      simp only [calc_rates, h]
      exact ⟨div_nonneg (Nat.cast_nonneg _) hdt, div_nonneg (Nat.cast_nonneg _) hdt,
        div_nonneg (Nat.cast_nonneg _) hdt, div_nonneg (Nat.cast_nonneg _) hdt,
        div_nonneg (Nat.cast_nonneg _) hdt⟩
  · intro tl now secs tm lm sm li si b hb
    simp only [calc_rates, hb, cast_natSub_eq_max]
  · norm_num [calc_rates, selectBase, List.find?]

theorem c2_rate_formula_witness :
    selectBase [⟨0, 100, 0, 0, 0, 0, 0⟩] 10 10 = some ⟨0, 100, 0, 0, 0, 0, 0⟩ ∧
    calc_rates [⟨0, 100, 0, 0, 0, 0, 0⟩] 10 10 150 20 30 40 50 =
      (max ((150 : ℚ) - 100) 0 / max (((10 : Nat) - (0 : Nat) : Nat) : ℚ) 1,
       max ((20 : ℚ) - 0) 0 / max (((10 : Nat) - (0 : Nat) : Nat) : ℚ) 1,
       max ((30 : ℚ) - 0) 0 / max (((10 : Nat) - (0 : Nat) : Nat) : ℚ) 1,
       max ((40 : ℚ) - 0) 0 / max (((10 : Nat) - (0 : Nat) : Nat) : ℚ) 1,
       max ((50 : ℚ) - 0) 0 / max (((10 : Nat) - (0 : Nat) : Nat) : ℚ) 1) :=
  ⟨selectBase_singleton _ 10 10,
   c2_rate_formula.2.1 _ 10 10 150 20 30 40 50 _ (selectBase_singleton _ 10 10)⟩

lemma find?_newest (p : Snap → Bool) :
    ∀ l : List Snap, l.Pairwise (fun a b => b.t ≤ a.t) → (∃ s ∈ l, p s = true) →
      ∃ b, l.find? p = some b ∧ b ∈ l ∧ p b = true ∧
        ∀ s ∈ l, p s = true → s.t ≤ b.t := by
  intro l
  induction l with
  | nil =>
      intro _ hex
      rcases hex with ⟨s, hs, _⟩
      cases hs
  | cons a l ih =>
      intro hp hex
      by_cases hpa : p a = true
      · refine ⟨a, List.find?_cons_of_pos _ hpa, List.mem_cons_self a l, hpa, ?_⟩
        intro s hs _
        rcases List.mem_cons.mp hs with rfl | hsl
        · exact le_refl _
        · exact (List.pairwise_cons.mp hp).1 s hsl
      · have hex2 : ∃ s ∈ l, p s = true := by
          rcases hex with ⟨s, hs, hps⟩
          rcases List.mem_cons.mp hs with rfl | hsl
          · exact absurd hps hpa
          · exact ⟨s, hsl, hps⟩
        rcases ih (List.pairwise_cons.mp hp).2 hex2 with ⟨b, hfind, hmem, hpb, hmax⟩
        refine ⟨b, ?_, List.mem_cons_of_mem a hmem, hpb, ?_⟩
        · rw [List.find?_cons_of_neg _ (by simpa using hpa)]
          exact hfind
        · intro s hs hps
          rcases List.mem_cons.mp hs with rfl | hsl
          · exact absurd hps hpa
          · exact hmax s hsl hps

/-- C1: with an empty timeline all rates are 0; when some entry has age at
least `w`, the selected base is such an entry and is the newest among them
(the first found scanning newest to oldest, for a timestamp-sorted timeline);
when no entry is old enough, selection falls back to the oldest entry. -/
theorem c1_base_selection (tl : List Snap) (now w tm lm sm li si : Nat)
    (hsort : tl.Pairwise (fun a b => a.t ≤ b.t)) :
    calc_rates [] now w tm lm sm li si = (0, 0, 0, 0, 0) ∧
    ((∃ s ∈ tl, w ≤ now - s.t) →
      ∃ b, selectBase tl now w = some b ∧ b ∈ tl ∧ w ≤ now - b.t ∧
        ∀ s ∈ tl, w ≤ now - s.t → s.t ≤ b.t) ∧
    ((∀ s ∈ tl, now - s.t < w) → selectBase tl now w = tl.head?) := by
  refine ⟨rfl, ?_, ?_⟩
  · intro hex
    have hrev : tl.reverse.Pairwise (fun a b => b.t ≤ a.t) :=
      List.pairwise_reverse.mpr hsort
    have hex2 : ∃ s ∈ tl.reverse, decide (w ≤ now - s.t) = true := by
      rcases hex with ⟨s, hs, hws⟩
      exact ⟨s, List.mem_reverse.mpr hs, by simpa using hws⟩
    rcases find?_newest _ tl.reverse hrev hex2 with ⟨b, hfind, hmem, hpb, hmax⟩
    refine ⟨b, ?_, List.mem_reverse.mp hmem, by simpa using hpb, ?_⟩
    · simp only [selectBase, hfind]
    · intro s hs hws
      exact hmax s (List.mem_reverse.mpr hs) (by simpa using hws)
  · intro hall
    have hnone : tl.reverse.find? (fun s => decide (w ≤ now - s.t)) = none :=
      List.find?_eq_none.mpr fun s hs => by
        simpa using Nat.not_le.mpr (hall s (List.mem_reverse.mp hs))
    simp only [selectBase, hnone]

theorem c1_base_selection_witness :
    (∃ b, selectBase [⟨0, 0, 0, 0, 0, 0, 0⟩, ⟨5, 8, 0, 0, 0, 0, 0⟩] 10 7 = some b ∧
      b ∈ [⟨0, 0, 0, 0, 0, 0, 0⟩, ⟨5, 8, 0, 0, 0, 0, 0⟩] ∧ 7 ≤ 10 - b.t ∧
      ∀ s ∈ [(⟨0, 0, 0, 0, 0, 0, 0⟩ : Snap), ⟨5, 8, 0, 0, 0, 0, 0⟩],
        7 ≤ 10 - s.t → s.t ≤ b.t) :=
  (c1_base_selection [⟨0, 0, 0, 0, 0, 0, 0⟩, ⟨5, 8, 0, 0, 0, 0, 0⟩] 10 7 0 0 0 0 0
      (by simp)).2.1
    ⟨⟨0, 0, 0, 0, 0, 0, 0⟩, by simp, by simp⟩

lemma pruneOld_suffix (now : Nat) (l : List Snap) : pruneOld now l <:+ l := by
  induction l with
  | nil => exact List.suffix_refl _
  | cons f rest ih =>
      by_cases h : 60 < now - f.t
      · simpa [pruneOld, h] using ih.trans (List.suffix_cons f rest)
      · simp [pruneOld, h]

lemma pruneOld_bound (now : Nat) (l : List Snap)
    (hsort : l.Pairwise (fun a b => a.t ≤ b.t)) :
    ∀ e ∈ pruneOld now l, now - e.t ≤ 60 := by
  induction l with
  | nil => intro e he; cases he
  | cons f rest ih =>
      intro e he
      by_cases h : 60 < now - f.t
      · rw [pruneOld, if_pos h] at he
        exact ih (List.pairwise_cons.mp hsort).2 e he
      · rw [pruneOld, if_neg h] at he
        rcases List.mem_cons.mp he with rfl | hrest
        · exact Nat.le_of_not_lt h
        · have hft : f.t ≤ e.t := (List.pairwise_cons.mp hsort).1 e hrest
          exact le_trans (Nat.sub_le_sub_left hft now) (Nat.le_of_not_lt h)

lemma pruneOld_concat (now : Nat) (s : Snap) (hs : ¬ 60 < now - s.t) :
    ∀ l : List Snap, ∃ l2, pruneOld now (l ++ [s]) = l2 ++ [s] := by
  intro l
  induction l with
  | nil => exact ⟨[], by simp [pruneOld, hs]⟩
  | cons f rest ih =>
      by_cases h : 60 < now - f.t
      · simpa [pruneOld, h] using ih
      · exact ⟨f :: rest, by simp [pruneOld, h]⟩

/-- C4: appending a snapshot to a timestamp-sorted timeline keeps the new
snapshot as the newest (last) entry, leaves no entry older than 60 time units
relative to it, and evicts only from the front: the result is a suffix of the
pushed timeline. -/
theorem c4_retention (tl : List Snap) (s : Snap)
    (hsort : tl.Pairwise (fun a b => a.t ≤ b.t)) (hle : ∀ e ∈ tl, e.t ≤ s.t) :
    (appendSnap tl s).getLast? = some s ∧
    (∀ e ∈ appendSnap tl s, s.t - e.t ≤ 60) ∧
    appendSnap tl s <:+ tl ++ [s] := by
  have hss : ¬ 60 < s.t - s.t := by simp
  have hsort2 : (tl ++ [s]).Pairwise (fun a b => a.t ≤ b.t) := by
    rw [List.pairwise_append]
    exact ⟨hsort, List.pairwise_singleton _ _, fun a ha b hb => by
      rcases List.mem_singleton.mp hb with rfl
      exact hle a ha⟩
  refine ⟨?_, pruneOld_bound s.t (tl ++ [s]) hsort2, pruneOld_suffix s.t (tl ++ [s])⟩
  rcases pruneOld_concat s.t s hss tl with ⟨l2, hl2⟩
  rw [appendSnap, hl2]
  exact List.getLast?_concat l2

theorem c4_retention_witness :
    (appendSnap [⟨0, 1, 0, 0, 0, 0, 0⟩, ⟨61, 2, 0, 0, 0, 0, 0⟩] ⟨65, 3, 0, 0, 0, 0, 0⟩).getLast?
        = some ⟨65, 3, 0, 0, 0, 0, 0⟩ ∧
    (∀ e ∈ appendSnap [⟨0, 1, 0, 0, 0, 0, 0⟩, ⟨61, 2, 0, 0, 0, 0, 0⟩] ⟨65, 3, 0, 0, 0, 0, 0⟩,
      (65 : Nat) - e.t ≤ 60) ∧
    appendSnap [⟨0, 1, 0, 0, 0, 0, 0⟩, ⟨61, 2, 0, 0, 0, 0, 0⟩] ⟨65, 3, 0, 0, 0, 0, 0⟩ <:+
      [⟨0, 1, 0, 0, 0, 0, 0⟩, ⟨61, 2, 0, 0, 0, 0, 0⟩] ++ [⟨65, 3, 0, 0, 0, 0, 0⟩] :=
  c4_retention [⟨0, 1, 0, 0, 0, 0, 0⟩, ⟨61, 2, 0, 0, 0, 0, 0⟩] ⟨65, 3, 0, 0, 0, 0, 0⟩
    (by simp) (by intro e he; fin_cases he <;> simp)

/-! ### Claims about the ingestion path and the snapshot union count -/

lemma subset_hsInsert (l : List String) (s : String) : l ⊆ hsInsert l s := by
  unfold hsInsert
  split
  · exact List.Subset.refl l
  · exact List.subset_append_left l [s]

lemma hsInsert_nodup (l : List String) (s : String) (h : l.Nodup) :
    (hsInsert l s).Nodup := by
  unfold hsInsert
  split
  · exact h
  · rename_i hmem
    rw [List.nodup_append]
    exact ⟨h, List.nodup_singleton s, by simpa [List.disjoint_singleton] using hmem⟩

lemma ingest_counts (st : CounterStore) (m : WsText) :
    (ingest st m).total_msgs = st.total_msgs + 1 ∧
    (ingest st m).live_msgs + (ingest st m).snap_msgs ≤ st.live_msgs + st.snap_msgs + 1 ∧
    st.live_msgs ≤ (ingest st m).live_msgs ∧
    st.snap_msgs ≤ (ingest st m).snap_msgs ∧
    st.live_instruments ⊆ (ingest st m).live_instruments ∧
    st.snap_instruments ⊆ (ingest st m).snap_instruments := by
  unfold ingest
  repeat' split
  all_goals
    refine ⟨rfl, ?_, ?_, ?_, ?_, ?_⟩ <;>
      simp [subset_hsInsert] <;> omega

lemma ingest_nodup (st : CounterStore) (m : WsText)
    (hl : st.live_instruments.Nodup) (hs : st.snap_instruments.Nodup) :
    (ingest st m).live_instruments.Nodup ∧ (ingest st m).snap_instruments.Nodup := by
  unfold ingest
  repeat' split
  all_goals exact ⟨by simp [hsInsert_nodup, hl], by simp [hsInsert_nodup, hs]⟩

lemma processAll_nodup (ms : List WsText) :
    ∀ st : CounterStore, st.live_instruments.Nodup → st.snap_instruments.Nodup →
      (processAll st ms).live_instruments.Nodup ∧
      (processAll st ms).snap_instruments.Nodup := by
  induction ms with
  | nil => exact fun st hl hs => ⟨hl, hs⟩
  | cons m ms ih =>
      intro st hl hs
      have h := ingest_nodup st m hl hs
      exact ih (ingest st m) h.1 h.2

lemma unionCount_toFinset (a b : List String) (ha : a.Nodup) (hb : b.Nodup) :
    unionCount a b = (a.toFinset ∪ b.toFinset).card := by
  have hnd : (a ++ b.filter fun x => decide (x ∉ a)).Nodup := by
    rw [List.nodup_append]
    refine ⟨ha, hb.filter _, ?_⟩
    intro x hxa hxf
    have hx := List.mem_filter.mp hxf
    simp only [decide_eq_true_eq] at hx
    exact hx.2 hxa
  have hfs : (a ++ b.filter fun x => decide (x ∉ a)).toFinset =
      a.toFinset ∪ b.toFinset := by
    ext x
    simp only [List.mem_toFinset, List.mem_append, List.mem_filter,
      decide_eq_true_eq, Finset.mem_union]
    tauto
  calc unionCount a b
      = (a ++ b.filter fun x => decide (x ∉ a)).toFinset.card :=
        (List.toFinset_card_of_nodup hnd).symm
    _ = (a.toFinset ∪ b.toFinset).card := by rw [hfs]

/-- C6: for every counter state reachable from startup, the snapshot captured
at a tick stores a union instrument count equal to the cardinality of the
union of the live-instrument and snapshot-instrument sets read at that
tick. -/
theorem c6_union_count (ms : List WsText) (now : Nat) :
    (mkSnap now (processAll initialState ms)).union_insts =
      ((processAll initialState ms).live_instruments.toFinset ∪
        (processAll initialState ms).snap_instruments.toFinset).card := by
  have h := processAll_nodup ms initialState List.nodup_nil List.nodup_nil
  exact unionCount_toFinset _ _ h.1 h.2

/-- C7: over any sequence of ingestion events, the three message counters are
non-decreasing and the two instrument sets never shrink. -/
theorem c7_monotonicity (st : CounterStore) (ms : List WsText) :
    st.total_msgs ≤ (processAll st ms).total_msgs ∧
    st.live_msgs ≤ (processAll st ms).live_msgs ∧
    st.snap_msgs ≤ (processAll st ms).snap_msgs ∧
    st.live_instruments ⊆ (processAll st ms).live_instruments ∧
    st.snap_instruments ⊆ (processAll st ms).snap_instruments := by
  induction ms generalizing st with
  | nil =>
      exact ⟨le_refl _, le_refl _, le_refl _, List.Subset.refl _, List.Subset.refl _⟩
  | cons m ms ih =>
      have h1 := ingest_counts st m
      have h2 := ih (ingest st m)
      refine ⟨?_, ?_, ?_, ?_, ?_⟩
      · exact le_trans (by omega) h2.1
      · exact le_trans h1.2.2.1 h2.2.1
      · exact le_trans h1.2.2.2.1 h2.2.2.1
      · exact List.Subset.trans h1.2.2.2.2.1 h2.2.2.2.1
      · exact List.Subset.trans h1.2.2.2.2.2 h2.2.2.2.2

lemma processAll_sum_invariant (ms : List WsText) :
    ∀ st : CounterStore, st.live_msgs + st.snap_msgs ≤ st.total_msgs →
      (processAll st ms).live_msgs + (processAll st ms).snap_msgs ≤
        (processAll st ms).total_msgs := by
  induction ms with
  | nil => exact fun st h => h
  | cons m ms ih =>
      intro st h
      have h1 := ingest_counts st m
      exact ih (ingest st m) (by omega)

/-- C10: after processing any sequence of inbound text messages from startup,
`total_msgs` is at least `live_msgs + snap_msgs`: every message adds one to
the total and at most one of the live and snapshot counters. -/
theorem c10_total_dominates (ms : List WsText) :
    (processAll initialState ms).live_msgs + (processAll initialState ms).snap_msgs ≤
      (processAll initialState ms).total_msgs :=
  processAll_sum_invariant ms initialState (by simp [initialState])
